import Mathlib

/-!
# Verification of the Tetris arcade machine game core

A shallow Lean embedding of the deterministic game core of the
`tetris-arcade-machine` repository:

* `src/renderer/gamePlay.ts` — the `GamePlay` session (line clearing,
  scoring, leveling, gravity speed, garbage lines, game over) and the
  paired piece `Generator`;
* `src/renderer/game/objects.ts` — the `GameObject` piece hierarchy
  (movement predicates `canGoLeft`/`canGoRight`/`canGoDown`, rotation
  tables and `canRotate`, `seal`);
* `src/renderer/game/constants.ts` — grid dimensions.

Modelling conventions:

* The JavaScript `number` type is modelled as `ℚ` for quantities that can
  be fractional in practice (score, the gravity interval, the difficulty
  multipliers, whose concrete values include 1.2, 1.4 and 1.5); grid
  coordinates are `Int` (they can go negative transiently: `pushLine`
  decrements `y` of every buffered cube) and counters are `Nat`.
* An out-of-range JavaScript array read yields `undefined`; every read the
  game performs is only ever compared with `1` (`== 1` / `!= 1`), so
  `undefined` is observationally equal to `0` and out-of-range reads are
  modelled as `0` (`List.getD`).
* `Math.random`-driven choices (the garbage gap column, the generated
  shape) are universally quantified parameters.
* Timers (`setInterval`/`clearInterval`) are modelled by an explicit
  `speed`/`speedActive` pair; view navigation by a `loadedView` field.
* The in-place `Array.prototype.forEach` mutation loop of
  `checkAndClearLine` is modelled index-faithfully (`clearRowStep` folded
  over the visited index range) and related by proof to a structural
  recursion (`clearLoop`) used for the main characterisation.
-/

namespace TetrisArcade

/-- `CELL_COUNT_X` from `game/constants.ts`: grid width. -/
def CELL_COUNT_X : Nat := 10

/-- `CELL_COUNT_Y` from `game/constants.ts`: grid height. -/
def CELL_COUNT_Y : Nat := 18

/-- A `Cube` render object: a unit cell with board coordinates and color
(`rendering.ts`).  Sprites are not modelled; the color distinguishes
garbage cubes (`"#CCCCCC"`). -/
structure Cube where
  x : Int
  y : Int
  color : String
deriving DecidableEq, Repr

/-- Reading `sealed[y][x]` in JavaScript: out-of-range reads give
`undefined`, which the game only ever compares with `1`, so they are
modelled as `0`. -/
def sealedAt (sealed : List (List Nat)) (y x : Int) : Nat :=
  if 0 ≤ y ∧ 0 ≤ x then (sealed.getD y.toNat []).getD x.toNat 0 else 0

/-- A row is full iff the sum of its occupancy flags equals the grid width
(`gamePlay.ts`, `checkAndClearLine`: `sum == CELL_COUNT_X`). -/
def isFull (r : List Nat) : Bool := r.sum == CELL_COUNT_X

/-- The empty row unshifted at the top for every cleared row
(`new Array(CELL_COUNT_X).fill(0)`). -/
def zeroRow : List Nat := List.replicate CELL_COUNT_X 0

/-- The row-clearing part of the `checkAndClearLine` forEach body moves a
buffered cube above the cleared index one row down
(`b.y < i ? b.y += 1 : null`). -/
def clearShiftCube (i : Nat) (b : Cube) : Cube :=
  if b.y < (i : Int) then { b with y := b.y + 1 } else b

/-- State threaded through the row-clearing loop of `checkAndClearLine`:
the occupancy grid, the placed-cube collection and the running count of
cleared lines. -/
structure ClearPass where
  sealed : List (List Nat)
  buffered : List Cube
  cleared : Nat
deriving DecidableEq, Repr

/-- One iteration of the `checkAndClearLine` forEach at index `i`: if the
row currently at `i` is full, `splice(i, 1)` it out, `unshift` a fresh
empty row at the top, drop the buffered cubes sitting on row `i` and move
the ones above it one row down, and count the clear. -/
def clearRowStep (st : ClearPass) (i : Nat) : ClearPass :=
  if isFull (st.sealed.getD i []) then
    { sealed := zeroRow :: st.sealed.eraseIdx i
      buffered := (st.buffered.filter (fun b => b.y ≠ (i : Int))).map (clearShiftCube i)
      cleared := st.cleared + 1 }
  else st

/-- The row-clearing pass of `checkAndClearLine`: `Array.prototype.forEach`
visits the indices `0, …, length − 1` fixed at call time, reading the
array's current element at each visit; each iteration preserves the
length, so the visited range is `List.range sealed.length`. -/
def clearFullRows (sealed : List (List Nat)) (buffered : List Cube) : ClearPass :=
  (List.range sealed.length).foldl clearRowStep ⟨sealed, buffered, 0⟩

/-- Structural recursion equivalent to the indexed loop: `P` is the
already-visited region of the grid (empty rows inserted at its front, kept
rows appended at its back), `rest` the rows not yet visited; the current
visit index is `P.length`. -/
def clearLoop (P : List (List Nat)) (buf : List Cube) (c : Nat) :
    List (List Nat) → ClearPass
  | [] => ⟨P, buf, c⟩
  | r :: rs =>
    if isFull r then
      clearLoop (zeroRow :: P)
        ((buf.filter (fun b => b.y ≠ (P.length : Int))).map (clearShiftCube P.length))
        (c + 1) rs
    else
      clearLoop (P ++ [r]) buf c rs

/-- Absolute indices (counting from `i`) of the full rows of a row list. -/
def fullIdxFrom (i : Nat) : List (List Nat) → List Nat
  | [] => []
  | r :: rs => if isFull r then i :: fullIdxFrom (i + 1) rs else fullIdxFrom (i + 1) rs

/-- Net effect of a clear pass with full-row indices `S` on one buffered
cube: deleted if it sits on a cleared row, otherwise moved down one row
per cleared row below it. -/
def clearNetCube (S : List Nat) (b : Cube) : Option Cube :=
  if b.y ∈ S.map (fun (i : Nat) => (i : Int)) then none
  else some { b with y := b.y + ((S.filter (fun (i : Nat) => b.y < (i : Int))).length : Int) }

/-- Net effect of a clear pass with full-row indices `S` on the buffered
collection. -/
def clearNetBuf (S : List Nat) (buf : List Cube) : List Cube :=
  buf.filterMap (clearNetCube S)

/-! ### Relating the indexed forEach loop to the structural recursion -/

lemma getD_append_length (P rs : List (List Nat)) (r : List Nat) :
    (P ++ r :: rs).getD P.length [] = r := by
  induction P with
  | nil => rfl
  | cons p ps ih => simpa using ih

lemma eraseIdx_append_length (P rs : List (List Nat)) (r : List Nat) :
    (P ++ r :: rs).eraseIdx P.length = P ++ rs := by
  induction P with
  | nil => rfl
  | cons p ps ih => simpa [List.eraseIdx] using ih

lemma clearFold_eq (rest : List (List Nat)) :
    ∀ (P : List (List Nat)) (buf : List Cube) (c : Nat),
      (List.range' P.length rest.length).foldl clearRowStep ⟨P ++ rest, buf, c⟩ =
        clearLoop P buf c rest := by
  induction rest with
  | nil => intro P buf c; simp [clearLoop]
  | cons r rs ih =>
    intro P buf c
    rw [List.length_cons, List.range'_succ, List.foldl_cons]
    by_cases h : isFull r
    · have hstep : clearRowStep ⟨P ++ r :: rs, buf, c⟩ P.length =
          ⟨zeroRow :: (P ++ rs),
           (buf.filter (fun b => b.y ≠ (P.length : Int))).map (clearShiftCube P.length),
           c + 1⟩ := by
        unfold clearRowStep
        rw [getD_append_length, if_pos h, eraseIdx_append_length]
      rw [hstep]
      have htail := ih (zeroRow :: P)
        ((buf.filter (fun b => b.y ≠ (P.length : Int))).map (clearShiftCube P.length)) (c + 1)
      simp only [List.length_cons] at htail
      simpa [clearLoop, h] using htail
    · have hstep : clearRowStep ⟨P ++ r :: rs, buf, c⟩ P.length = ⟨P ++ r :: rs, buf, c⟩ := by
        unfold clearRowStep
        rw [getD_append_length, if_neg h]
      rw [hstep]
      have htail := ih (P ++ [r]) buf c
      simp only [List.length_append, List.length_cons, List.length_nil] at htail
      simpa [clearLoop, h] using htail

lemma clearFullRows_eq_clearLoop (sealed : List (List Nat)) (buf : List Cube) :
    clearFullRows sealed buf = clearLoop [] buf 0 sealed := by
  have h := clearFold_eq sealed [] buf 0
  simpa [clearFullRows, List.range_eq_range'] using h

lemma fullIdxFrom_lower {j : Nat} :
    ∀ (l : List (List Nat)) (k : Nat), j ∈ fullIdxFrom k l → k ≤ j := by
  intro l
  induction l with
  | nil => intro k h; simp [fullIdxFrom] at h
  | cons r rs ih =>
    intro k h
    by_cases hr : isFull r
    · simp only [fullIdxFrom, hr, if_true, List.mem_cons] at h
      rcases h with rfl | h
      · exact le_refl _
      · exact Nat.le_of_succ_le (ih (k + 1) h)
    · simp only [fullIdxFrom, hr, if_false] at h
      exact Nat.le_of_succ_le (ih (k + 1) h)

lemma clearNetCube_shift (i : Nat) (S : List Nat) (hS : ∀ j ∈ S, i < j)
    (b : Cube) (hy : b.y ≠ (i : Int)) :
    clearNetCube S (clearShiftCube i b) = clearNetCube (i :: S) b := by
  obtain ⟨bx, yv, bc⟩ := b
  simp only at hy
  by_cases hlt : yv < (i : Int)
  · have hb : clearShiftCube i ⟨bx, yv, bc⟩ = ⟨bx, yv + 1, bc⟩ := by
      simp [clearShiftCube, hlt]
    have hnm : yv + 1 ∉ S.map (fun (j : Nat) => (j : Int)) := by
      intro hmem
      rcases List.mem_map.mp hmem with ⟨j, hj, hje⟩
      have := hS j hj
      omega
    have hnm2 : yv ∉ (i :: S).map (fun (j : Nat) => (j : Int)) := by
      intro hmem
      rcases List.mem_map.mp hmem with ⟨j, hj, hje⟩
      rcases List.mem_cons.mp hj with rfl | hj'
      · exact hy hje.symm
      · have := hS j hj'
        omega
    have hfil : S.filter (fun (j : Nat) => yv + 1 < (j : Int)) = S :=
      List.filter_eq_self.mpr (by
        intro j hj
        have := hS j hj
        simp only [decide_eq_true_eq]
        omega)
    have hfil2 : (i :: S).filter (fun (j : Nat) => yv < (j : Int)) = i :: S :=
      List.filter_eq_self.mpr (by
        intro j hj
        rcases List.mem_cons.mp hj with rfl | hj'
        · simp only [decide_eq_true_eq]; omega
        · have := hS j hj'
          simp only [decide_eq_true_eq]
          omega)
    rw [hb]
    unfold clearNetCube
    simp only
    rw [if_neg hnm, if_neg hnm2, hfil, hfil2]
    simp only [Option.some.injEq, Cube.mk.injEq, List.length_cons, true_and, and_true]
    push_cast
    ring
  · have hgt : (i : Int) < yv := by omega
    have hb : clearShiftCube i ⟨bx, yv, bc⟩ = ⟨bx, yv, bc⟩ := by
      simp [clearShiftCube, hlt]
    have hmm : (yv ∈ (i :: S).map (fun (j : Nat) => (j : Int))) ↔
        (yv ∈ S.map (fun (j : Nat) => (j : Int))) := by
      simp only [List.map_cons, List.mem_cons]
      constructor
      · rintro (h | h)
        · exact absurd h.symm (by omega)
        · exact h
      · exact fun h => Or.inr h
    have hfil : (i :: S).filter (fun (j : Nat) => yv < (j : Int)) =
        S.filter (fun (j : Nat) => yv < (j : Int)) := by
      rw [List.filter_cons]
      rw [if_neg (by simp only [decide_eq_true_eq]; omega)]
    rw [hb]
    unfold clearNetCube
    simp only
    rw [hfil]
    by_cases hmem : yv ∈ S.map (fun (j : Nat) => (j : Int))
    · rw [if_pos hmem, if_pos (hmm.mpr hmem)]
    · rw [if_neg hmem, if_neg (fun h => hmem (hmm.mp h))]

lemma clearNetBuf_shift (i : Nat) (S : List Nat) (hS : ∀ j ∈ S, i < j) :
    ∀ buf : List Cube,
      clearNetBuf S ((buf.filter (fun b => b.y ≠ (i : Int))).map (clearShiftCube i)) =
        clearNetBuf (i :: S) buf
  | [] => rfl
  | b :: bs => by
    have tail := clearNetBuf_shift i S hS bs
    by_cases hy : b.y = (i : Int)
    · have hdrop : (b :: bs).filter (fun b => b.y ≠ (i : Int)) =
          bs.filter (fun b => b.y ≠ (i : Int)) := by
        rw [List.filter_cons, if_neg (by simp [hy])]
      have hnone : clearNetCube (i :: S) b = none := by
        simp [clearNetCube, hy]
      rw [hdrop]
      unfold clearNetBuf at tail ⊢
      rw [List.filterMap_cons, hnone]
      exact tail
    · have hkeep : (b :: bs).filter (fun b => b.y ≠ (i : Int)) =
          b :: bs.filter (fun b => b.y ≠ (i : Int)) := by
        rw [List.filter_cons, if_pos (by simp [hy])]
      rw [hkeep, List.map_cons]
      unfold clearNetBuf at tail ⊢
      rw [List.filterMap_cons, List.filterMap_cons, clearNetCube_shift i S hS b hy]
      cases clearNetCube (i :: S) b with
      | none => exact tail
      | some b' => rw [tail]

lemma clearNetBuf_nil (buf : List Cube) : clearNetBuf [] buf = buf := by
  induction buf with
  | nil => rfl
  | cons b bs ih =>
    unfold clearNetBuf at ih ⊢
    rw [List.filterMap_cons]
    have hb : clearNetCube [] b = some b := by
      simp [clearNetCube]
    rw [hb, ih]

lemma clearLoop_spec : ∀ (rest P : List (List Nat)) (buf : List Cube) (c : Nat),
    clearLoop P buf c rest =
      ⟨List.replicate (rest.countP isFull) zeroRow ++ P ++ rest.filter (fun r => !isFull r),
       clearNetBuf (fullIdxFrom P.length rest) buf,
       c + rest.countP isFull⟩
  | [], P, buf, c => by
    simp [clearLoop, fullIdxFrom, clearNetBuf_nil]
  | r :: rs, P, buf, c => by
    by_cases h : isFull r
    · have hrec := clearLoop_spec rs (zeroRow :: P)
        ((buf.filter (fun b => b.y ≠ (P.length : Int))).map (clearShiftCube P.length)) (c + 1)
      have hstep : clearLoop P buf c (r :: rs) =
          clearLoop (zeroRow :: P)
            ((buf.filter (fun b => b.y ≠ (P.length : Int))).map (clearShiftCube P.length))
            (c + 1) rs := by
        simp [clearLoop, h]
      rw [hstep, hrec]
      have hlower : ∀ j ∈ fullIdxFrom (P.length + 1) rs, P.length < j := fun j hj =>
        Nat.lt_of_succ_le (fullIdxFrom_lower rs (P.length + 1) hj)
      have hbuf := clearNetBuf_shift P.length (fullIdxFrom (P.length + 1) rs) hlower buf
      have hidx : fullIdxFrom P.length (r :: rs) =
          P.length :: fullIdxFrom (P.length + 1) rs := by
        simp [fullIdxFrom, h]
      simp only [ClearPass.mk.injEq, List.length_cons]
      refine ⟨?_, ?_, ?_⟩
      · rw [List.countP_cons_of_pos _ _ (by simpa using h),
          List.filter_cons_of_neg (by simp [h]), List.replicate_succ']
        simp [List.append_assoc]
      · rw [hidx]
        exact hbuf
      · rw [List.countP_cons_of_pos _ _ (by simpa using h)]
        omega
    · have hrec := clearLoop_spec rs (P ++ [r]) buf c
      have hstep : clearLoop P buf c (r :: rs) = clearLoop (P ++ [r]) buf c rs := by
        simp [clearLoop, h]
      rw [hstep, hrec]
      have hidx : fullIdxFrom P.length (r :: rs) = fullIdxFrom (P.length + 1) rs := by
        simp [fullIdxFrom, h]
      simp only [ClearPass.mk.injEq, List.length_append, List.length_cons, List.length_nil]
      refine ⟨?_, ?_, ?_⟩
      · rw [List.countP_cons_of_neg _ _ (by simpa using h),
          List.filter_cons_of_pos (by simp [h])]
        simp [List.append_assoc]
      · rw [hidx]
      · rw [List.countP_cons_of_neg _ _ (by simpa using h)]

lemma mem_fullIdxFrom : ∀ (l : List (List Nat)) (k j : Nat),
    j ∈ fullIdxFrom k l ↔ ∃ m, m < l.length ∧ j = k + m ∧ isFull (l.getD m []) := by
  intro l
  induction l with
  | nil => intro k j; simp [fullIdxFrom]
  | cons r rs ih =>
    intro k j
    by_cases h : isFull r
    · rw [fullIdxFrom, if_pos h]
      constructor
      · intro hj
        rcases List.mem_cons.mp hj with rfl | hj'
        · exact ⟨0, Nat.succ_pos _, by omega, by simpa using h⟩
        · rcases (ih (k + 1) j).mp hj' with ⟨m, hm, hjm, hf⟩
          exact ⟨m + 1, by simp only [List.length_cons]; omega, by omega, by simpa using hf⟩
      · rintro ⟨m, hm, rfl, hf⟩
        cases m with
        | zero => exact List.mem_cons_self _ _
        | succ m' =>
          refine List.mem_cons_of_mem _
            ((ih (k + 1) (k + (m' + 1))).mpr
              ⟨m', by simp only [List.length_cons] at hm; omega, by omega, ?_⟩)
          simpa using hf
    · rw [fullIdxFrom, if_neg h]
      constructor
      · intro hj
        rcases (ih (k + 1) j).mp hj with ⟨m, hm, hjm, hf⟩
        exact ⟨m + 1, by simp only [List.length_cons]; omega, by omega, by simpa using hf⟩
      · rintro ⟨m, hm, rfl, hf⟩
        cases m with
        | zero => exact absurd (by simpa using hf) h
        | succ m' =>
          refine (ih (k + 1) (k + (m' + 1))).mpr
            ⟨m', by simp only [List.length_cons] at hm; omega, by omega, ?_⟩
          simpa using hf

/-! ## C1 — the line-clear pass -/

/-- **C1** (amended).  One pass of the `checkAndClearLine` row-clearing
loop removes exactly those rows whose occupancy flags sum to the grid
width 10, unshifts one new empty row at the top per removed row, counts
the number of removed rows (0 if none), deletes every placed cube whose
row equals a cleared row, and *increases* by exactly 1 the row index of a
placed cube for each cleared row that lay below it (so cubes above a
cleared row move one row down); placed cubes below every cleared row are
unchanged.  (The claim as stated — the row index of cells above a cleared
row *decreases* by 1 — is refuted by `C1_counterexample`.)  `clearNetCube`
spells out the per-cube effect and the final conjunct identifies
`fullIdxFrom 0 sealed` as exactly the set of full-row indices. -/
theorem C1_clear_full_rows (sealed : List (List Nat)) (buffered : List Cube) :
    (clearFullRows sealed buffered).cleared = sealed.countP isFull
    ∧ (clearFullRows sealed buffered).sealed =
        List.replicate (sealed.countP isFull) zeroRow ++ sealed.filter (fun r => !isFull r)
    ∧ (clearFullRows sealed buffered).buffered =
        clearNetBuf (fullIdxFrom 0 sealed) buffered
    ∧ (∀ j : Nat, j ∈ fullIdxFrom 0 sealed ↔
        j < sealed.length ∧ isFull (sealed.getD j [])) := by
  rw [clearFullRows_eq_clearLoop, clearLoop_spec]
  refine ⟨by simp, by simp, by simp, ?_⟩
  intro j
  rw [mem_fullIdxFrom]
  constructor
  · rintro ⟨m, hm, hj, hf⟩
    have hjm : j = m := by omega
    subst hjm
    exact ⟨hm, hf⟩
  · intro h
    exact ⟨j, h.1, by omega, h.2⟩

/-- Board for the C1 counterexample: grid row 5 (0 = top) fully occupied,
all other rows empty. -/
def c1Board : List (List Nat) :=
  List.replicate 5 (List.replicate 10 0) ++ [List.replicate 10 1]
    ++ List.replicate 12 (List.replicate 10 0)

set_option maxRecDepth 20000 in
/-- **C1** as stated is false: on a board whose only full row is row 5,
with a single placed cube at row 4 (above the cleared row), the pass
clears one row and moves the cube to row 5 = 4 + 1 — its row index
increases — whereas the claim's "decreases by exactly 1" demands row 3. -/
theorem C1_counterexample :
    (clearFullRows c1Board [⟨3, 4, "#ffff00"⟩]).cleared = 1
    ∧ (clearFullRows c1Board [⟨3, 4, "#ffff00"⟩]).buffered = [⟨3, 5, "#ffff00"⟩]
    ∧ (clearFullRows c1Board [⟨3, 4, "#ffff00"⟩]).buffered ≠ [⟨3, 3, "#ffff00"⟩] := by
  decide

/-! ## The game session -/

/-- `GameType` from `gamePlay.ts`. -/
inductive GameType
  | multiplayer
  | singleplayer
deriving DecidableEq, Repr

/-- The mutable `GamePlay` session state.  `speed`/`speedActive` model the
`setInterval` gravity timer (interval length; whether a timer is
installed); `loadedView` models the `View.loadWithGroup` navigation
signal emitted on game over.  The active piece `movable` is its list of
cubes. -/
structure GameState where
  sealed : List (List Nat)
  buffered : List Cube
  movable : List Cube
  points : ℚ
  cleared : Nat
  needToClear : Nat
  level : Nat
  combo : Nat
  lastMove : Bool
  speed : ℚ
  speedActive : Bool
  gameType : GameType
  wasLoser : Bool
  loadedView : Option String
deriving DecidableEq, Repr

/-- The interval computed by `resetSpeedInterval`:
`let speed = 500 - (level - 1) * speedMultiplier * 10;
speed = speed <= 0 ? 20 : speed`. -/
def computeSpeed (sm : ℚ) (level : Nat) : ℚ :=
  if 500 - ((level : ℚ) - 1) * sm * 10 ≤ 0 then 20
  else 500 - ((level : ℚ) - 1) * sm * 10

/-- `resetSpeedInterval`: clear any running gravity timer and install a new
one with the computed interval. -/
def resetSpeedInterval (sm : ℚ) (st : GameState) : GameState :=
  { st with speed := computeSpeed sm st.level, speedActive := true }

/-- Base score table of `checkAndClearLine`'s `switch (cleared)`; the
`default` case covers every count ≥ 4 (`checkAndClearLine` only consults
it for a non-zero count). -/
def baseScore : Nat → Nat
  | 1 => 100
  | 2 => 300
  | 3 => 500
  | _ => 1200

/-- `checkAndClearLine` from `gamePlay.ts`: run the row-clearing pass;
if lines were cleared, add the base score and the combo bonus
(`50 * combo * level * levelMultiplier`) and increment the combo,
otherwise reset the combo to 0; add the cleared lines to the level
counter; when it reaches the threshold, subtract the threshold (keeping
the remainder), increment the level, recompute the threshold as
`level * 5` and restart the gravity timer.  The multiplayer
`otherGame.pushLine` calls mutate only the peer session's state, not this
one's, and the `onScoreUpdate` callback is external. -/
def checkAndClearLine (lm sm : ℚ) (st : GameState) : GameState :=
  let p := clearFullRows st.sealed st.buffered
  -- `this.points += …; this.combo++` / `this.combo = 0`: the score and
  -- combo read the session fields before any of this call's writes.
  let pts :=
    if p.cleared ≠ 0 then
      st.points + (baseScore p.cleared : ℚ) * (st.level : ℚ) * lm
        + 50 * (st.combo : ℚ) * (st.level : ℚ) * lm
    else st.points
  let cmb := if p.cleared ≠ 0 then st.combo + 1 else 0
  -- `this.cleared += cleared`
  let clr := st.cleared + p.cleared
  -- `if (this.cleared >= this.needToClear)`: subtract the old threshold,
  -- `this.level++`, `this.needToClear = this.level * 5` (the new level),
  -- then `resetSpeedInterval()` at the new level.
  if st.needToClear ≤ clr then
    { st with
      sealed := p.sealed, buffered := p.buffered, points := pts, combo := cmb
      cleared := clr - st.needToClear
      level := st.level + 1
      needToClear := (st.level + 1) * 5
      speed := computeSpeed sm (st.level + 1)
      speedActive := true }
  else
    { st with
      sealed := p.sealed, buffered := p.buffered, points := pts, combo := cmb
      cleared := clr }

/-- The counter initialisation of `GamePlay.reset`: empty board and
buffer, `points = 0`, `level = 1`, `combo = 0`, `cleared = 0`,
`needToClear = 5`. -/
def reset (st : GameState) : GameState :=
  { st with
    sealed := List.replicate CELL_COUNT_Y (List.replicate CELL_COUNT_X 0)
    buffered := []
    points := 0
    level := 1
    combo := 0
    cleared := 0
    needToClear := 5 }

/-! ## C2 — scoring and combo -/

/-- **C2.** At every lock, with `c` the number of rows cleared by the
pass: if `c ≥ 1` the score grows by exactly
`baseScore c × level × levelMultiplier` plus the combo bonus
`50 × combo × level × levelMultiplier` (with the pre-lock combo), and the
combo then increments; if `c = 0` the score is unchanged and the combo
resets to 0.  The base table is `100 / 300 / 500` for 1–3 rows and `1200`
for every count ≥ 4. -/
theorem C2_scoring (lm sm : ℚ) (st : GameState) :
    ((clearFullRows st.sealed st.buffered).cleared ≠ 0 →
      (checkAndClearLine lm sm st).points =
        st.points
          + (baseScore (clearFullRows st.sealed st.buffered).cleared : ℚ)
            * (st.level : ℚ) * lm
          + 50 * (st.combo : ℚ) * (st.level : ℚ) * lm
      ∧ (checkAndClearLine lm sm st).combo = st.combo + 1)
    ∧ ((clearFullRows st.sealed st.buffered).cleared = 0 →
      (checkAndClearLine lm sm st).points = st.points
      ∧ (checkAndClearLine lm sm st).combo = 0)
    ∧ baseScore 1 = 100 ∧ baseScore 2 = 300 ∧ baseScore 3 = 500
    ∧ (∀ c, 4 ≤ c → baseScore c = 1200) := by
  refine ⟨?_, ?_, rfl, rfl, rfl, ?_⟩
  · intro hc
    simp only [checkAndClearLine, if_pos hc]
    split_ifs with hlev
    · exact ⟨rfl, rfl⟩
    · exact ⟨rfl, rfl⟩
  · intro hc
    simp only [checkAndClearLine,
      if_neg (show ¬(clearFullRows st.sealed st.buffered).cleared ≠ 0 by simp [hc])]
    split_ifs with hlev
    · exact ⟨rfl, rfl⟩
    · exact ⟨rfl, rfl⟩
  · intro c hc
    match c, hc with
    | n + 4, _ => rfl

/-- A session state about to lock: board `c1Board` has exactly one full
row, empty buffer, level 1, combo 0, nothing cleared yet. -/
def exLockState : GameState where
  sealed := c1Board
  buffered := []
  movable := []
  points := 0
  cleared := 0
  needToClear := 5
  level := 1
  combo := 0
  lastMove := false
  speed := 500
  speedActive := true
  gameType := GameType.singleplayer
  wasLoser := false
  loadedView := none

set_option maxRecDepth 20000 in
/-- Witness for `C2_scoring` on a concrete lock clearing one row. -/
theorem C2_scoring_witness :
    (checkAndClearLine 1 1 exLockState).points =
      exLockState.points
        + (baseScore (clearFullRows exLockState.sealed exLockState.buffered).cleared : ℚ)
          * (exLockState.level : ℚ) * 1
        + 50 * (exLockState.combo : ℚ) * (exLockState.level : ℚ) * 1
    ∧ (checkAndClearLine 1 1 exLockState).combo = exLockState.combo + 1 :=
  (C2_scoring 1 1 exLockState).1 (by decide)

/-! ## C3 — leveling -/

/-- **C3.** After every clear pass the rows cleared this pass are added to
the cleared-since-level-up counter; when the sum reaches the threshold
(initially 5, see the `reset` conjunct), the threshold is subtracted from
the counter — the remainder carries forward, the counter is not zeroed —
the level increments, the threshold becomes the new `level × 5`, and the
gravity interval is recomputed for the new level and the timer restarted;
below the threshold, counter accumulates and level, threshold and timer
are untouched. -/
theorem C3_leveling (lm sm : ℚ) (st : GameState) :
    (reset st).needToClear = 5
    ∧ (st.needToClear ≤ st.cleared + (clearFullRows st.sealed st.buffered).cleared →
      (checkAndClearLine lm sm st).cleared =
        st.cleared + (clearFullRows st.sealed st.buffered).cleared - st.needToClear
      ∧ (checkAndClearLine lm sm st).level = st.level + 1
      ∧ (checkAndClearLine lm sm st).needToClear = (st.level + 1) * 5
      ∧ (checkAndClearLine lm sm st).speed = computeSpeed sm (st.level + 1)
      ∧ (checkAndClearLine lm sm st).speedActive = true)
    ∧ (st.cleared + (clearFullRows st.sealed st.buffered).cleared < st.needToClear →
      (checkAndClearLine lm sm st).cleared =
        st.cleared + (clearFullRows st.sealed st.buffered).cleared
      ∧ (checkAndClearLine lm sm st).level = st.level
      ∧ (checkAndClearLine lm sm st).needToClear = st.needToClear
      ∧ (checkAndClearLine lm sm st).speed = st.speed
      ∧ (checkAndClearLine lm sm st).speedActive = st.speedActive) := by
  refine ⟨rfl, ?_, ?_⟩
  · intro hlev
    simp only [checkAndClearLine]
    split_ifs with h1 <;> exact ⟨rfl, rfl, rfl, rfl, rfl⟩
  · intro hlev
    simp only [checkAndClearLine]
    split_ifs with h1 h2 h3 <;> first | exact ⟨rfl, rfl, rfl, rfl, rfl⟩ | omega

set_option maxRecDepth 20000 in
/-- Witness for `C3_leveling` on a concrete lock that stays below the
threshold. -/
theorem C3_leveling_witness :
    (checkAndClearLine 1 1 exLockState).cleared =
      exLockState.cleared + (clearFullRows exLockState.sealed exLockState.buffered).cleared
    ∧ (checkAndClearLine 1 1 exLockState).level = exLockState.level
    ∧ (checkAndClearLine 1 1 exLockState).needToClear = exLockState.needToClear
    ∧ (checkAndClearLine 1 1 exLockState).speed = exLockState.speed
    ∧ (checkAndClearLine 1 1 exLockState).speedActive = exLockState.speedActive :=
  (C3_leveling 1 1 exLockState).2.2 (by decide)

/-! ## C6 — gravity interval -/

/-- **C6** as stated is false: the code clamps the interval to 20 only
when the raw value is ≤ 0 (`speed <= 0 ? 20 : speed`), so at level 50 with
`speedMultiplier = 1` (the easy difficulty) the raw value is 10 and the
installed interval is 10, not `max 20 (500 − 49·1·10) = 20`. -/
theorem C6_counterexample :
    computeSpeed 1 50 = 10
    ∧ max 20 (500 - ((50 : ℚ) - 1) * 1 * 10) = 20
    ∧ computeSpeed 1 50 ≠ max 20 (500 - ((50 : ℚ) - 1) * 1 * 10) := by
  refine ⟨?_, ?_, ?_⟩ <;> norm_num [computeSpeed]

/-- **C6** (amended).  The installed gravity interval equals
`500 − (level−1) × speedMultiplier × 10` whenever that value is positive —
positive values below 20 are installed unclamped — and 20 when the value
is ≤ 0; in particular the interval is always positive, but it is *not*
bounded below by 20. -/
theorem C6_speed_interval (sm : ℚ) (level : Nat) :
    (500 - ((level : ℚ) - 1) * sm * 10 ≤ 0 → computeSpeed sm level = 20)
    ∧ (0 < 500 - ((level : ℚ) - 1) * sm * 10 →
        computeSpeed sm level = 500 - ((level : ℚ) - 1) * sm * 10)
    ∧ 0 < computeSpeed sm level := by
  unfold computeSpeed
  split_ifs with h
  · exact ⟨fun _ => rfl, fun hpos => absurd h (by linarith), by norm_num⟩
  · push_neg at h
    exact ⟨fun hle => absurd hle (by linarith), fun _ => rfl, h⟩

/-- Witness for `C6_speed_interval` at `speedMultiplier = 1`, level 1. -/
theorem C6_speed_interval_witness :
    computeSpeed 1 1 = 500 - ((1 : ℚ) - 1) * 1 * 10 :=
  (C6_speed_interval 1 1).2.1 (by norm_num)

/-! ## Garbage lines (`pushLine`) -/

/-- The occupancy row injected at the bottom by one `pushLine` iteration:
`Array.from({length: CELL_COUNT_X}, (v, k) => k == space ? 0 : 1)`. -/
def garbageRow (space : Nat) : List Nat :=
  (List.range CELL_COUNT_X).map (fun k => if k = space then 0 else 1)

/-- The gray garbage cubes created by one `pushLine` iteration: for each
column `j ≠ space`, one cube at the bottom row `CELL_COUNT_Y - 1` with the
gray sprite color. -/
def garbageCubes (space : Nat) : List Cube :=
  ((List.range CELL_COUNT_X).filter (fun j => j ≠ space)).map
    (fun j => ⟨(j : Int), (CELL_COUNT_Y : Int) - 1, "#CCCCCC"⟩)

/-- One iteration of the `pushLine` loop with gap column `space`: build
the garbage cubes, move every buffered cube up one row (`b.y--`), drop
the top occupancy row (`this.sealed.shift()`), append the garbage row at
the bottom (`this.sealed.push(...)`), re-run `checkAndClearLine`, then
append the garbage cubes to the buffer. -/
def pushLineStep (lm sm : ℚ) (space : Nat) (st : GameState) : GameState :=
  let cubes := garbageCubes space
  let st1 := { st with
    buffered := st.buffered.map (fun b => { b with y := b.y - 1 })
    sealed := st.sealed.tail ++ [garbageRow space] }
  let st2 := checkAndClearLine lm sm st1
  { st2 with buffered := st2.buffered ++ cubes }

/-- `pushLine(count)` runs the loop body once per requested line; the
random gap columns (`Math.floor(Math.random() * CELL_COUNT_X)`) are the
entries of `gaps`, one per iteration. -/
def pushLine (lm sm : ℚ) (gaps : List Nat) (st : GameState) : GameState :=
  gaps.foldl (fun s g => pushLineStep lm sm g s) st

/-! ## C7 — garbage-line injection -/

/-- **C7.**  `pushLine` performs one loop iteration per entry of `gaps`
(its length is the requested count `n`); each iteration shifts every
placed cube up by one row (`y` decremented), drops the topmost occupancy
row and appends a new bottom occupancy row of width 10 that is occupied in
exactly 9 columns with the single gap at the iteration's random column,
re-runs the line-clear check on the shifted board, and finally appends the
9 new garbage cubes (bottom row, every column but the gap, gray) to the
placed-cube collection. -/
theorem C7_push_line (lm sm : ℚ) (st : GameState) (g : Nat) (gs : List Nat)
    (hg : g < CELL_COUNT_X) :
    pushLine lm sm [] st = st
    ∧ pushLine lm sm (g :: gs) st = pushLine lm sm gs (pushLineStep lm sm g st)
    ∧ (garbageRow g).length = CELL_COUNT_X
    ∧ (garbageRow g).sum = CELL_COUNT_X - 1
    ∧ (garbageRow g).getD g 1 = 0
    ∧ (∀ j, j < CELL_COUNT_X → j ≠ g → (garbageRow g).getD j 0 = 1)
    ∧ (garbageCubes g).length = CELL_COUNT_X - 1
    ∧ (∀ b ∈ garbageCubes g,
        b.y = (CELL_COUNT_Y : Int) - 1 ∧ b.x ≠ (g : Int) ∧ b.color = "#CCCCCC")
    ∧ (pushLineStep lm sm g st).sealed =
        (clearFullRows (st.sealed.tail ++ [garbageRow g])
          (st.buffered.map (fun b => { b with y := b.y - 1 }))).sealed
    ∧ (pushLineStep lm sm g st).buffered =
        (clearFullRows (st.sealed.tail ++ [garbageRow g])
          (st.buffered.map (fun b => { b with y := b.y - 1 }))).buffered
          ++ garbageCubes g := by
  have hg10 : g < 10 := hg
  refine ⟨rfl, rfl, ?_, ?_, ?_, ?_, ?_, ?_, ?_, ?_⟩
  · simp [garbageRow]
  · interval_cases g <;> decide
  · interval_cases g <;> decide
  · interval_cases g <;> decide
  · interval_cases g <;> decide
  · interval_cases g <;> decide
  · simp only [pushLineStep, checkAndClearLine]
    split_ifs <;> rfl
  · simp only [pushLineStep, checkAndClearLine]
    split_ifs <;> rfl

/-- Witness for `C7_push_line` at gap column 4. -/
theorem C7_push_line_witness :
    (garbageRow 4).sum = CELL_COUNT_X - 1 ∧ (garbageCubes 4).length = CELL_COUNT_X - 1 :=
  ⟨(C7_push_line 1 1 exLockState 4 [] (by decide)).2.2.2.1,
   (C7_push_line 1 1 exLockState 4 [] (by decide)).2.2.2.2.2.2.1⟩

/-! ## C10 — garbage that clears nothing still resets the combo -/

lemma fullIdxFrom_eq_nil (l : List (List Nat)) (h : ∀ r ∈ l, ¬ isFull r) :
    ∀ k, fullIdxFrom k l = [] := by
  induction l with
  | nil => intro k; rfl
  | cons r rs ih =>
    intro k
    rw [fullIdxFrom, if_neg (h r (List.mem_cons_self _ _))]
    exact ih (fun r hr => h r (List.mem_cons_of_mem _ hr)) (k + 1)

/-- On a board with no full row the clear pass is the identity. -/
lemma clearFullRows_no_full (sealed : List (List Nat)) (buf : List Cube)
    (h : ∀ r ∈ sealed, ¬ isFull r) :
    clearFullRows sealed buf = ⟨sealed, buf, 0⟩ := by
  rw [clearFullRows_eq_clearLoop, clearLoop_spec]
  have hcount : sealed.countP isFull = 0 :=
    List.countP_eq_zero.mpr (by intro r hr; simpa using h r hr)
  have hfilter : sealed.filter (fun r => !isFull r) = sealed :=
    List.filter_eq_self.mpr (by intro r hr; simpa using h r hr)
  have hidx := fullIdxFrom_eq_nil sealed h 0
  simp only [List.length_nil] at hidx ⊢
  rw [hcount, hfilter, hidx, clearNetBuf_nil]
  simp

/-- `checkAndClearLine` on a pass that clears nothing, below the level
threshold: board and buffer are replaced by the pass results, the combo
resets, everything else is unchanged. -/
lemma checkAndClearLine_no_clear (lm sm : ℚ) (st : GameState)
    (hc : (clearFullRows st.sealed st.buffered).cleared = 0)
    (hlev : st.cleared < st.needToClear) :
    checkAndClearLine lm sm st =
      { st with
        sealed := (clearFullRows st.sealed st.buffered).sealed
        buffered := (clearFullRows st.sealed st.buffered).buffered
        combo := 0 } := by
  simp only [checkAndClearLine, hc]
  rw [if_neg (by omega), if_neg (show ¬(0 : Nat) ≠ 0 by simp),
    if_neg (show ¬(0 : Nat) ≠ 0 by simp)]
  simp

/-- One garbage iteration on a board with no full row and below the level
threshold: the board gains the garbage row at the bottom (top row
dropped), the buffer is shifted up and gains the garbage cubes, the combo
resets, and score, level and counters are unchanged. -/
lemma pushLineStep_no_clear (lm sm : ℚ) (g : Nat) (st : GameState)
    (hg : g < CELL_COUNT_X)
    (hrows : ∀ r ∈ st.sealed, ¬ isFull r)
    (hlev : st.cleared < st.needToClear) :
    pushLineStep lm sm g st =
      { st with
        sealed := st.sealed.tail ++ [garbageRow g]
        buffered := st.buffered.map (fun b => { b with y := b.y - 1 }) ++ garbageCubes g
        combo := 0 } := by
  have hgr : ¬ isFull (garbageRow g) = true := by
    have : g < 10 := hg
    interval_cases g <;> decide
  have hall : ∀ r ∈ st.sealed.tail ++ [garbageRow g], ¬ isFull r := by
    intro r hr
    rcases List.mem_append.mp hr with hr | hr
    · exact hrows r (List.mem_of_mem_tail hr)
    · rw [List.mem_singleton.mp hr]
      exact hgr
  have h1 := clearFullRows_no_full (st.sealed.tail ++ [garbageRow g])
    (st.buffered.map (fun b => { b with y := b.y - 1 })) hall
  simp only [pushLineStep]
  rw [checkAndClearLine_no_clear lm sm
      { st with
        buffered := st.buffered.map (fun b => { b with y := b.y - 1 })
        sealed := st.sealed.tail ++ [garbageRow g] }
      (congrArg ClearPass.cleared h1) hlev]
  simp [h1]

/-- Net effect of a whole `pushLine` call that never completes a row. -/
lemma pushLine_no_clear (lm sm : ℚ) : ∀ (gaps : List Nat) (st : GameState),
    (∀ g ∈ gaps, g < CELL_COUNT_X) →
    (∀ r ∈ st.sealed, ¬ isFull r) →
    st.cleared < st.needToClear →
    (pushLine lm sm gaps st).points = st.points
    ∧ (pushLine lm sm gaps st).level = st.level
    ∧ (pushLine lm sm gaps st).cleared = st.cleared
    ∧ (pushLine lm sm gaps st).needToClear = st.needToClear
    ∧ (pushLine lm sm gaps st).combo = (if gaps = [] then st.combo else 0) := by
  intro gaps
  induction gaps with
  | nil => intro st _ _ _; exact ⟨rfl, rfl, rfl, rfl, rfl⟩
  | cons g gs ih =>
    intro st hg hrows hlev
    have hstep := pushLineStep_no_clear lm sm g st (hg g (List.mem_cons_self _ _)) hrows hlev
    have hgr : ¬ isFull (garbageRow g) = true := by
      have : g < 10 := hg g (List.mem_cons_self _ _)
      interval_cases g <;> decide
    have hall : ∀ r ∈ (pushLineStep lm sm g st).sealed, ¬ isFull r := by
      rw [hstep]
      intro r hr
      rcases List.mem_append.mp hr with hr | hr
      · exact hrows r (List.mem_of_mem_tail hr)
      · rw [List.mem_singleton.mp hr]
        exact hgr
    have hnext := ih (pushLineStep lm sm g st)
      (fun g' hg' => hg g' (List.mem_cons_of_mem _ hg'))
      hall (by rw [hstep]; exact hlev)
    have hrw : pushLine lm sm (g :: gs) st = pushLine lm sm gs (pushLineStep lm sm g st) := rfl
    rw [hrw]
    refine ⟨?_, ?_, ?_, ?_, ?_⟩
    · rw [hnext.1, hstep]
    · rw [hnext.2.1, hstep]
    · rw [hnext.2.2.1, hstep]
    · rw [hnext.2.2.2.1, hstep]
    · rw [hnext.2.2.2.2, hstep]
      by_cases hgs : gs = [] <;> simp [hgs]

/-- **C10.**  A `pushLine` call whose injected garbage completes no full
row (no row of the board sums to 10, so every clear pass clears 0 rows)
leaves score, level, the cleared-lines counter and the lines-needed
threshold unchanged, but resets the recipient's combo to 0 even though no
piece lock occurred on that board.  The session invariant
`cleared < needToClear` is assumed, as established by `reset`. -/
theorem C10_garbage_resets_combo (lm sm : ℚ) (st : GameState) (gaps : List Nat)
    (hg : ∀ g ∈ gaps, g < CELL_COUNT_X)
    (hrows : ∀ r ∈ st.sealed, ¬ isFull r)
    (hlev : st.cleared < st.needToClear)
    (hne : gaps ≠ []) :
    (pushLine lm sm gaps st).points = st.points
    ∧ (pushLine lm sm gaps st).level = st.level
    ∧ (pushLine lm sm gaps st).cleared = st.cleared
    ∧ (pushLine lm sm gaps st).needToClear = st.needToClear
    ∧ (pushLine lm sm gaps st).combo = 0 := by
  have h := pushLine_no_clear lm sm gaps st hg hrows hlev
  refine ⟨h.1, h.2.1, h.2.2.1, h.2.2.2.1, ?_⟩
  rw [h.2.2.2.2, if_neg hne]

set_option maxRecDepth 20000 in
/-- Witness for `C10_garbage_resets_combo`: one garbage line pushed into a
freshly reset session (with combo artificially at 3 to exhibit the
reset). -/
theorem C10_garbage_resets_combo_witness :
    (pushLine 1 1 [7] { reset exLockState with combo := 3 }).points =
      ({ reset exLockState with combo := 3 } : GameState).points
    ∧ (pushLine 1 1 [7] { reset exLockState with combo := 3 }).level =
      ({ reset exLockState with combo := 3 } : GameState).level
    ∧ (pushLine 1 1 [7] { reset exLockState with combo := 3 }).cleared =
      ({ reset exLockState with combo := 3 } : GameState).cleared
    ∧ (pushLine 1 1 [7] { reset exLockState with combo := 3 }).needToClear =
      ({ reset exLockState with combo := 3 } : GameState).needToClear
    ∧ (pushLine 1 1 [7] { reset exLockState with combo := 3 }).combo = 0 :=
  C10_garbage_resets_combo 1 1 _ [7] (by decide) (by decide) (by decide) (by decide)

/-! ## Piece movement predicates (`game/objects.ts`) -/

/-- `GameObject.getLeft()`: smallest `x` of the shape's cubes, computed by
a fold starting from the sentinel `-1`. -/
def getLeft (shapes : List Cube) : Int :=
  shapes.foldl (fun x s => if x = -1 then s.x else if s.x < x then s.x else x) (-1)

/-- `GameObject.getRight()`: largest `x` of the shape's cubes, computed by
a fold starting from the sentinel `-1`. -/
def getRight (shapes : List Cube) : Int :=
  shapes.foldl (fun x s => if x = -1 then s.x else if x < s.x then s.x else x) (-1)

/-- `GameObject.getBottom()`: largest `y` of the shape's cubes, computed
by a fold starting from the sentinel `-1`. -/
def getBottom (shapes : List Cube) : Int :=
  shapes.foldl (fun y s => if y = -1 then s.y else if y < s.y then s.y else y) (-1)

/-- One `Map.set` pass of the `canGoLeft` loop: per row key `s.y`, keep
the cube with the smaller `x` (`if (points.get(s.y).x > s.x)
points.set(s.y, s)`); `Map.set` replaces in place and preserves insertion
order. -/
def rowMinStep (acc : List Cube) (s : Cube) : List Cube :=
  match acc.find? (fun t => t.y == s.y) with
  | some t => if s.x < t.x then acc.map (fun u => if u.y = s.y then s else u) else acc
  | none => acc ++ [s]

/-- The `Map<number, Cube>` of `canGoLeft`: per occupied row, the leftmost
cube. -/
def rowMinPoints (shapes : List Cube) : List Cube :=
  shapes.foldl rowMinStep []

/-- `canGoLeft(sealed)`: no row's leftmost cube has a sealed cell directly
to its left (`sealed[s.y][s.x - 1] == 1`); out-of-range reads yield
`undefined` and never block — the key handlers guard the wall separately
with `getLeft() > 0`. -/
def canGoLeft (shapes : List Cube) (sealed : List (List Nat)) : Bool :=
  (rowMinPoints shapes).all (fun s => !(sealedAt sealed s.y (s.x - 1) == 1))

/-- One `Map.set` pass of the `canGoRight` loop: per row key `s.y`, keep
the cube with the larger `x` (`if (points.get(s.y).x < s.x)
points.set(s.y, s)`). -/
def rowMaxStep (acc : List Cube) (s : Cube) : List Cube :=
  match acc.find? (fun t => t.y == s.y) with
  | some t => if t.x < s.x then acc.map (fun u => if u.y = s.y then s else u) else acc
  | none => acc ++ [s]

/-- The `Map<number, Cube>` of `canGoRight`: per occupied row, the
rightmost cube. -/
def rowMaxPoints (shapes : List Cube) : List Cube :=
  shapes.foldl rowMaxStep []

/-- `canGoRight(sealed)`: no row's rightmost cube has a sealed cell
directly to its right (`sealed[s.y][s.x + 1] == 1`); out-of-range reads
yield `undefined` and never block — the key handlers guard the wall
separately with `getRight() < CELL_COUNT_X - 1`. -/
def canGoRight (shapes : List Cube) (sealed : List (List Nat)) : Bool :=
  (rowMaxPoints shapes).all (fun s => !(sealedAt sealed s.y (s.x + 1) == 1))

lemma rowMinStep_some (acc : List Cube) (s t : Cube)
    (hfind : acc.find? (fun t => t.y == s.y) = some t) :
    rowMinStep acc s =
      if s.x < t.x then acc.map (fun u => if u.y = s.y then s else u) else acc := by
  unfold rowMinStep
  rw [hfind]

lemma rowMinStep_none (acc : List Cube) (s : Cube)
    (hfind : acc.find? (fun t => t.y == s.y) = none) :
    rowMinStep acc s = acc ++ [s] := by
  unfold rowMinStep
  rw [hfind]

lemma rowMinPoints_aux :
    ∀ (l acc pre : List Cube),
      (∀ m ∈ acc, m ∈ pre ∧ ∀ t ∈ pre, t.y = m.y → m.x ≤ t.x) →
      (∀ s ∈ pre, ∃ m ∈ acc, m.y = s.y) →
      (∀ m ∈ l.foldl rowMinStep acc, m ∈ pre ++ l ∧ ∀ t ∈ pre ++ l, t.y = m.y → m.x ≤ t.x)
      ∧ (∀ s ∈ pre ++ l, ∃ m ∈ l.foldl rowMinStep acc, m.y = s.y) := by
  intro l
  induction l with
  | nil =>
    intro acc pre ha hb
    constructor
    · intro m hm
      rcases ha m hm with ⟨h1, h2⟩
      refine ⟨by simpa using h1, ?_⟩
      intro t ht
      exact h2 t (by simpa using ht)
    · intro s hs
      exact hb s (by simpa using hs)
  | cons s ls ih =>
    intro acc pre ha hb
    have hstepA : ∀ m ∈ rowMinStep acc s,
        m ∈ pre ++ [s] ∧ ∀ t ∈ pre ++ [s], t.y = m.y → m.x ≤ t.x := by
      intro m hm
      cases hfind : acc.find? (fun t => t.y == s.y) with
      | some t =>
        rw [rowMinStep_some acc s t hfind] at hm
        have ht : t ∈ acc := List.mem_of_find?_eq_some hfind
        have hty : t.y = s.y := by simpa using List.find?_some hfind
        by_cases hx : s.x < t.x
        · rw [if_pos hx] at hm
          rcases List.mem_map.mp hm with ⟨u, hu, rfl⟩
          by_cases huy : u.y = s.y
          · rw [if_pos huy]
            refine ⟨List.mem_append_right _ (by simp), ?_⟩
            intro t' ht' hty'
            rcases List.mem_append.mp ht' with ht' | ht'
            · have h1 := (ha t ht).2 t' ht' (hty'.trans hty.symm)
              omega
            · rw [List.mem_singleton.mp ht']
          · rw [if_neg huy]
            refine ⟨List.mem_append_left _ (ha u hu).1, ?_⟩
            intro t' ht' hty'
            rcases List.mem_append.mp ht' with ht' | ht'
            · exact (ha u hu).2 t' ht' hty'
            · rw [List.mem_singleton.mp ht'] at hty'
              exact absurd hty'.symm huy
        · rw [if_neg hx] at hm
          refine ⟨List.mem_append_left _ (ha m hm).1, ?_⟩
          intro t' ht' hty'
          rcases List.mem_append.mp ht' with ht' | ht'
          · exact (ha m hm).2 t' ht' hty'
          · rw [List.mem_singleton.mp ht'] at hty' ⊢
            have h1 := (ha m hm).2 t (ha t ht).1 (hty.trans hty')
            omega
      | none =>
        rw [rowMinStep_none acc s hfind] at hm
        have hnone : ∀ u ∈ acc, u.y ≠ s.y := by
          intro u hu
          have := List.find?_eq_none.mp hfind u hu
          simpa using this
        rcases List.mem_append.mp hm with hm | hm
        · refine ⟨List.mem_append_left _ (ha m hm).1, ?_⟩
          intro t' ht' hty'
          rcases List.mem_append.mp ht' with ht' | ht'
          · exact (ha m hm).2 t' ht' hty'
          · rw [List.mem_singleton.mp ht'] at hty'
            exact absurd hty'.symm (hnone m hm)
        · rw [List.mem_singleton.mp hm]
          refine ⟨List.mem_append_right _ (by simp), ?_⟩
          intro t' ht' hty'
          rcases List.mem_append.mp ht' with ht' | ht'
          · rcases hb t' ht' with ⟨m', hm', hmy'⟩
            exact absurd (hmy'.trans hty') (hnone m' hm')
          · rw [List.mem_singleton.mp ht']
    have hstepB : ∀ s' ∈ pre ++ [s], ∃ m ∈ rowMinStep acc s, m.y = s'.y := by
      intro s' hs'
      cases hfind : acc.find? (fun t => t.y == s.y) with
      | some t =>
        rw [rowMinStep_some acc s t hfind]
        have ht : t ∈ acc := List.mem_of_find?_eq_some hfind
        have hty : t.y = s.y := by simpa using List.find?_some hfind
        by_cases hx : s.x < t.x
        · rw [if_pos hx]
          rcases List.mem_append.mp hs' with hs' | hs'
          · rcases hb s' hs' with ⟨m, hm, hmy⟩
            by_cases hmy' : m.y = s.y
            · refine ⟨s, List.mem_map.mpr ⟨m, hm, by rw [if_pos hmy']⟩, ?_⟩
              rw [← hmy, hmy']
            · exact ⟨m, List.mem_map.mpr ⟨m, hm, by rw [if_neg hmy']⟩, hmy⟩
          · rw [List.mem_singleton.mp hs']
            exact ⟨s, List.mem_map.mpr ⟨t, ht, by rw [if_pos hty]⟩, rfl⟩
        · rw [if_neg hx]
          rcases List.mem_append.mp hs' with hs' | hs'
          · exact hb s' hs'
          · rw [List.mem_singleton.mp hs']
            exact ⟨t, ht, hty⟩
      | none =>
        rw [rowMinStep_none acc s hfind]
        rcases List.mem_append.mp hs' with hs' | hs'
        · rcases hb s' hs' with ⟨m, hm, hmy⟩
          exact ⟨m, List.mem_append_left _ hm, hmy⟩
        · rw [List.mem_singleton.mp hs']
          exact ⟨s, List.mem_append_right _ (by simp), rfl⟩
    have hrec := ih (rowMinStep acc s) (pre ++ [s]) hstepA hstepB
    have hshape : (pre ++ [s]) ++ ls = pre ++ s :: ls := by simp
    rw [hshape] at hrec
    exact hrec

lemma rowMinPoints_mem (shapes : List Cube) :
    (∀ m ∈ rowMinPoints shapes, m ∈ shapes ∧ ∀ t ∈ shapes, t.y = m.y → m.x ≤ t.x)
    ∧ (∀ s ∈ shapes, ∃ m ∈ rowMinPoints shapes, m.y = s.y) := by
  have h := rowMinPoints_aux shapes [] [] (by simp) (by simp)
  simpa [rowMinPoints] using h

lemma rowMaxStep_some (acc : List Cube) (s t : Cube)
    (hfind : acc.find? (fun t => t.y == s.y) = some t) :
    rowMaxStep acc s =
      if t.x < s.x then acc.map (fun u => if u.y = s.y then s else u) else acc := by
  unfold rowMaxStep
  rw [hfind]

lemma rowMaxStep_none (acc : List Cube) (s : Cube)
    (hfind : acc.find? (fun t => t.y == s.y) = none) :
    rowMaxStep acc s = acc ++ [s] := by
  unfold rowMaxStep
  rw [hfind]

lemma rowMaxPoints_aux :
    ∀ (l acc pre : List Cube),
      (∀ m ∈ acc, m ∈ pre ∧ ∀ t ∈ pre, t.y = m.y → t.x ≤ m.x) →
      (∀ s ∈ pre, ∃ m ∈ acc, m.y = s.y) →
      (∀ m ∈ l.foldl rowMaxStep acc, m ∈ pre ++ l ∧ ∀ t ∈ pre ++ l, t.y = m.y → t.x ≤ m.x)
      ∧ (∀ s ∈ pre ++ l, ∃ m ∈ l.foldl rowMaxStep acc, m.y = s.y) := by
  intro l
  induction l with
  | nil =>
    intro acc pre ha hb
    constructor
    · intro m hm
      rcases ha m hm with ⟨h1, h2⟩
      refine ⟨by simpa using h1, ?_⟩
      intro t ht
      exact h2 t (by simpa using ht)
    · intro s hs
      exact hb s (by simpa using hs)
  | cons s ls ih =>
    intro acc pre ha hb
    have hstepA : ∀ m ∈ rowMaxStep acc s,
        m ∈ pre ++ [s] ∧ ∀ t ∈ pre ++ [s], t.y = m.y → t.x ≤ m.x := by
      intro m hm
      cases hfind : acc.find? (fun t => t.y == s.y) with
      | some t =>
        rw [rowMaxStep_some acc s t hfind] at hm
        have ht : t ∈ acc := List.mem_of_find?_eq_some hfind
        have hty : t.y = s.y := by simpa using List.find?_some hfind
        by_cases hx : t.x < s.x
        · rw [if_pos hx] at hm
          rcases List.mem_map.mp hm with ⟨u, hu, rfl⟩
          by_cases huy : u.y = s.y
          · rw [if_pos huy]
            refine ⟨List.mem_append_right _ (by simp), ?_⟩
            intro t' ht' hty'
            rcases List.mem_append.mp ht' with ht' | ht'
            · have h1 := (ha t ht).2 t' ht' (hty'.trans hty.symm)
              omega
            · rw [List.mem_singleton.mp ht']
          · rw [if_neg huy]
            refine ⟨List.mem_append_left _ (ha u hu).1, ?_⟩
            intro t' ht' hty'
            rcases List.mem_append.mp ht' with ht' | ht'
            · exact (ha u hu).2 t' ht' hty'
            · rw [List.mem_singleton.mp ht'] at hty'
              exact absurd hty'.symm huy
        · rw [if_neg hx] at hm
          refine ⟨List.mem_append_left _ (ha m hm).1, ?_⟩
          intro t' ht' hty'
          rcases List.mem_append.mp ht' with ht' | ht'
          · exact (ha m hm).2 t' ht' hty'
          · rw [List.mem_singleton.mp ht'] at hty' ⊢
            have h1 := (ha m hm).2 t (ha t ht).1 (hty.trans hty')
            omega
      | none =>
        rw [rowMaxStep_none acc s hfind] at hm
        have hnone : ∀ u ∈ acc, u.y ≠ s.y := by
          intro u hu
          have := List.find?_eq_none.mp hfind u hu
          simpa using this
        rcases List.mem_append.mp hm with hm | hm
        · refine ⟨List.mem_append_left _ (ha m hm).1, ?_⟩
          intro t' ht' hty'
          rcases List.mem_append.mp ht' with ht' | ht'
          · exact (ha m hm).2 t' ht' hty'
          · rw [List.mem_singleton.mp ht'] at hty'
            exact absurd hty'.symm (hnone m hm)
        · rw [List.mem_singleton.mp hm]
          refine ⟨List.mem_append_right _ (by simp), ?_⟩
          intro t' ht' hty'
          rcases List.mem_append.mp ht' with ht' | ht'
          · rcases hb t' ht' with ⟨m', hm', hmy'⟩
            exact absurd (hmy'.trans hty') (hnone m' hm')
          · rw [List.mem_singleton.mp ht']
    have hstepB : ∀ s' ∈ pre ++ [s], ∃ m ∈ rowMaxStep acc s, m.y = s'.y := by
      intro s' hs'
      cases hfind : acc.find? (fun t => t.y == s.y) with
      | some t =>
        rw [rowMaxStep_some acc s t hfind]
        have ht : t ∈ acc := List.mem_of_find?_eq_some hfind
        have hty : t.y = s.y := by simpa using List.find?_some hfind
        by_cases hx : t.x < s.x
        · rw [if_pos hx]
          rcases List.mem_append.mp hs' with hs' | hs'
          · rcases hb s' hs' with ⟨m, hm, hmy⟩
            by_cases hmy' : m.y = s.y
            · refine ⟨s, List.mem_map.mpr ⟨m, hm, by rw [if_pos hmy']⟩, ?_⟩
              rw [← hmy, hmy']
            · exact ⟨m, List.mem_map.mpr ⟨m, hm, by rw [if_neg hmy']⟩, hmy⟩
          · rw [List.mem_singleton.mp hs']
            exact ⟨s, List.mem_map.mpr ⟨t, ht, by rw [if_pos hty]⟩, rfl⟩
        · rw [if_neg hx]
          rcases List.mem_append.mp hs' with hs' | hs'
          · exact hb s' hs'
          · rw [List.mem_singleton.mp hs']
            exact ⟨t, ht, hty⟩
      | none =>
        rw [rowMaxStep_none acc s hfind]
        rcases List.mem_append.mp hs' with hs' | hs'
        · rcases hb s' hs' with ⟨m, hm, hmy⟩
          exact ⟨m, List.mem_append_left _ hm, hmy⟩
        · rw [List.mem_singleton.mp hs']
          exact ⟨s, List.mem_append_right _ (by simp), rfl⟩
    have hrec := ih (rowMaxStep acc s) (pre ++ [s]) hstepA hstepB
    have hshape : (pre ++ [s]) ++ ls = pre ++ s :: ls := by simp
    rw [hshape] at hrec
    exact hrec

lemma rowMaxPoints_mem (shapes : List Cube) :
    (∀ m ∈ rowMaxPoints shapes, m ∈ shapes ∧ ∀ t ∈ shapes, t.y = m.y → t.x ≤ m.x)
    ∧ (∀ s ∈ shapes, ∃ m ∈ rowMaxPoints shapes, m.y = s.y) := by
  have h := rowMaxPoints_aux shapes [] [] (by simp) (by simp)
  simpa [rowMaxPoints] using h

/-! ## C5 — sideways movement predicates -/

/-- **C5** (amended).  `canGoLeft` returns `false` exactly when some cube
that is leftmost in its row has the board cell one step to its left
*sealed* (occupancy value 1); symmetrically `canGoRight` for the rightmost
cube and the cell one step right.  The predicates do *not* themselves
treat out-of-bounds neighbours as blocking: such reads yield `undefined`
(modelled 0) and never block — the walls are guarded separately by the key
handlers (`getLeft() > 0`, `getRight() < CELL_COUNT_X - 1`).  The claim's
"or out of the grid bounds" clause is refuted by `C5_counterexample`. -/
theorem C5_side_movement (shapes : List Cube) (sealed : List (List Nat)) :
    (canGoLeft shapes sealed = false ↔
      ∃ s ∈ shapes, (∀ t ∈ shapes, t.y = s.y → s.x ≤ t.x)
        ∧ sealedAt sealed s.y (s.x - 1) = 1)
    ∧ (canGoRight shapes sealed = false ↔
      ∃ s ∈ shapes, (∀ t ∈ shapes, t.y = s.y → t.x ≤ s.x)
        ∧ sealedAt sealed s.y (s.x + 1) = 1) := by
  constructor
  · constructor
    · intro hfalse
      rw [canGoLeft] at hfalse
      have h1 : ¬ (rowMinPoints shapes).all
          (fun s => !(sealedAt sealed s.y (s.x - 1) == 1)) = true := by
        rw [hfalse]
        simp
      rw [List.all_eq_true] at h1
      push_neg at h1
      rcases h1 with ⟨m, hm, hpm⟩
      have hseal : sealedAt sealed m.y (m.x - 1) = 1 := by
        simpa using hpm
      exact ⟨m, ((rowMinPoints_mem shapes).1 m hm).1,
        fun t ht hty => ((rowMinPoints_mem shapes).1 m hm).2 t ht hty, hseal⟩
    · rintro ⟨s, hs, hmin, hseal⟩
      rcases (rowMinPoints_mem shapes).2 s hs with ⟨m, hm, hmy⟩
      have hmem := (rowMinPoints_mem shapes).1 m hm
      have hx1 : m.x ≤ s.x := hmem.2 s hs hmy.symm
      have hx2 : s.x ≤ m.x := hmin m hmem.1 hmy
      have hxeq : m.x = s.x := le_antisymm hx1 hx2
      cases hall : canGoLeft shapes sealed with
      | false => rfl
      | true =>
        exfalso
        rw [canGoLeft, List.all_eq_true] at hall
        have h2 := hall m hm
        rw [hmy, hxeq] at h2
        simp [hseal] at h2
  · constructor
    · intro hfalse
      rw [canGoRight] at hfalse
      have h1 : ¬ (rowMaxPoints shapes).all
          (fun s => !(sealedAt sealed s.y (s.x + 1) == 1)) = true := by
        rw [hfalse]
        simp
      rw [List.all_eq_true] at h1
      push_neg at h1
      rcases h1 with ⟨m, hm, hpm⟩
      have hseal : sealedAt sealed m.y (m.x + 1) = 1 := by
        simpa using hpm
      exact ⟨m, ((rowMaxPoints_mem shapes).1 m hm).1,
        fun t ht hty => ((rowMaxPoints_mem shapes).1 m hm).2 t ht hty, hseal⟩
    · rintro ⟨s, hs, hmax, hseal⟩
      rcases (rowMaxPoints_mem shapes).2 s hs with ⟨m, hm, hmy⟩
      have hmem := (rowMaxPoints_mem shapes).1 m hm
      have hx1 : s.x ≤ m.x := hmem.2 s hs hmy.symm
      have hx2 : m.x ≤ s.x := hmax m hmem.1 hmy
      have hxeq : m.x = s.x := le_antisymm hx2 hx1
      cases hall : canGoRight shapes sealed with
      | false => rfl
      | true =>
        exfalso
        rw [canGoRight, List.all_eq_true] at hall
        have h2 := hall m hm
        rw [hmy, hxeq] at h2
        simp [hseal] at h2

/-- The freshly spawned `LineBox` cells, constructed at the board origin
(`(0,1), (1,1), (2,1), (3,1)`, color `#00ffff`). -/
def lineBoxSpawnCells : List Cube :=
  [⟨0, 1, "#00ffff"⟩, ⟨1, 1, "#00ffff"⟩, ⟨2, 1, "#00ffff"⟩, ⟨3, 1, "#00ffff"⟩]

/-- The empty 18 × 10 board. -/
def emptyBoard : List (List Nat) :=
  List.replicate CELL_COUNT_Y (List.replicate CELL_COUNT_X 0)

/-- **C5** as stated is false: a freshly spawned `LineBox` sits at the
left wall (leftmost column 0, so the cell one step to its left is column
−1, outside the grid bounds), yet `canGoLeft` returns `true` on the empty
board — the claim demands it return `false` there.  The wall check lives
in the key handlers (`getLeft() > 0`), not in `canGoLeft`. -/
theorem C5_counterexample :
    getLeft lineBoxSpawnCells = 0
    ∧ canGoLeft lineBoxSpawnCells emptyBoard = true := by
  decide

/-- A board with the single sealed cell at row 5, column 2. -/
def c5BlockBoard : List (List Nat) :=
  emptyBoard.set 5 ((List.replicate CELL_COUNT_X 0).set 2 1)

/-- Witness for `C5_side_movement`: a single-cube piece at `(3,5)` with a
sealed cell at `(2,5)` cannot go left. -/
theorem C5_side_movement_witness :
    canGoLeft [⟨3, 5, "#ffff00"⟩] c5BlockBoard = false :=
  (C5_side_movement [⟨3, 5, "#ffff00"⟩] c5BlockBoard).1.mpr
    ⟨⟨3, 5, "#ffff00"⟩, by decide, by decide, by decide⟩

/-! ## Rotation (`game/objects.ts`) and C4 -/

/-- The seven `GameObject` subclasses in `GAME_OBJECTS` order. -/
inductive ShapeKind
  | box | tbox | zbox | rzbox | lbox | rlbox | lineBox
deriving DecidableEq, Repr

/-- `RotationIndex` from `game/objects.ts`. -/
inductive RotationIndex
  | top | left | bottom | right
deriving DecidableEq, Repr

/-- `GameObject.check(sealed, p)`:
`p.vx >= 0 && p.vx < CELL_COUNT_X && p.vy >= 0 && p.vy < CELL_COUNT_Y &&
sealed[p.vy][p.vx] != 1`. -/
def check (sealed : List (List Nat)) (p : Int × Int) : Bool :=
  decide (0 ≤ p.1) && decide (p.1 < (CELL_COUNT_X : Int))
    && decide (0 ≤ p.2) && decide (p.2 < (CELL_COUNT_Y : Int))
    && !(sealedAt sealed p.2 p.1 == 1)

/-- The cells (offsets from the current `mainShape`, via `cords.calc`)
that each subclass's `rotate()` installs for the *next* rotation state,
transcribed case by case from the source; `Box.rotate()` is a no-op. -/
def rotateOffsets : ShapeKind → RotationIndex → List (Int × Int)
  | .box, _ => []
  | .tbox, .bottom => [(0, 0), (0, -1), (0, 1), (1, 0)]
  | .tbox, .left => [(0, 0), (-1, 0), (1, 0), (0, -1)]
  | .tbox, .top => [(0, 0), (0, -1), (0, 1), (-1, 0)]
  | .tbox, .right => [(0, 0), (-1, 0), (1, 0), (0, 1)]
  | .zbox, .bottom => [(0, 0), (1, 0), (1, 1), (0, -1)]
  | .zbox, .left => [(0, 0), (1, 0), (0, 1), (-1, 1)]
  | .zbox, .top => [(0, 0), (-1, 0), (0, 1), (-1, -1)]
  | .zbox, .right => [(0, 0), (0, -1), (1, -1), (-1, 0)]
  | .rzbox, .bottom => [(0, 0), (0, 1), (1, 0), (1, -1)]
  | .rzbox, .left => [(0, 0), (-1, 0), (0, 1), (1, 1)]
  | .rzbox, .top => [(0, 0), (1, 0), (1, -1), (0, 1)]
  | .rzbox, .right => [(0, 0), (1, 0), (0, -1), (-1, -1)]
  | .lbox, .bottom => [(0, 0), (0, -1), (0, 1), (1, 1)]
  | .lbox, .left => [(0, 0), (1, 0), (-1, 0), (-1, 1)]
  | .lbox, .top => [(0, 0), (0, 1), (0, -1), (-1, -1)]
  | .lbox, .right => [(0, 0), (-1, 0), (1, 0), (1, -1)]
  | .rlbox, .bottom => [(0, 0), (0, 1), (0, -1), (1, -1)]
  | .rlbox, .left => [(0, 0), (-1, 0), (1, 0), (1, 1)]
  | .rlbox, .top => [(0, 0), (0, -1), (0, 1), (-1, 1)]
  | .rlbox, .right => [(0, 0), (1, 0), (-1, 0), (-1, -1)]
  | .lineBox, .bottom => [(1, 0), (1, -1), (1, 1), (1, 2)]
  | .lineBox, .left => [(0, 1), (1, 1), (-1, 1), (-2, 1)]
  | .lineBox, .top => [(-1, 0), (-1, 1), (-1, -1), (-1, -2)]
  | .lineBox, .right => [(0, -1), (-1, -1), (1, -1), (2, -1)]

/-- The offsets whose cells each subclass's `canRotate(sealed)` actually
checks, transcribed case by case from the source (`Box.canRotate` checks
nothing, it returns `false` directly).  Note `LBox.canRotate` in state
`LEFT` checks the offset `(1, 0)` twice and never checks `(-1, 0)`,
unlike `LBox.rotate` — see `C4_code_bug`. -/
def canRotateChecks : ShapeKind → RotationIndex → List (Int × Int)
  | .box, _ => []
  | .tbox, .bottom => [(0, 0), (0, -1), (0, 1), (1, 0)]
  | .tbox, .left => [(0, 0), (-1, 0), (1, 0), (0, -1)]
  | .tbox, .top => [(0, 0), (0, -1), (0, 1), (-1, 0)]
  | .tbox, .right => [(0, 0), (-1, 0), (1, 0), (0, 1)]
  | .zbox, .bottom => [(0, 0), (1, 0), (1, 1), (0, -1)]
  | .zbox, .left => [(0, 0), (1, 0), (0, 1), (-1, 1)]
  | .zbox, .top => [(0, 0), (-1, 0), (0, 1), (-1, -1)]
  | .zbox, .right => [(0, 0), (0, -1), (1, -1), (-1, 0)]
  | .rzbox, .bottom => [(0, 0), (0, 1), (1, 0), (1, -1)]
  | .rzbox, .left => [(0, 0), (-1, 0), (0, 1), (1, 1)]
  | .rzbox, .top => [(0, 0), (1, 0), (1, -1), (0, 1)]
  | .rzbox, .right => [(0, 0), (1, 0), (0, -1), (-1, -1)]
  | .lbox, .bottom => [(0, 0), (0, -1), (0, 1), (1, 1)]
  | .lbox, .left => [(0, 0), (1, 0), (1, 0), (-1, 1)]
  | .lbox, .top => [(0, 0), (0, 1), (0, -1), (-1, -1)]
  | .lbox, .right => [(0, 0), (-1, 0), (1, 0), (1, -1)]
  | .rlbox, .bottom => [(0, 0), (0, 1), (0, -1), (1, -1)]
  | .rlbox, .left => [(0, 0), (-1, 0), (1, 0), (1, 1)]
  | .rlbox, .top => [(0, 0), (0, -1), (0, 1), (-1, 1)]
  | .rlbox, .right => [(0, 0), (1, 0), (-1, 0), (-1, -1)]
  | .lineBox, .bottom => [(1, 0), (1, -1), (1, 1), (1, 2)]
  | .lineBox, .left => [(0, 1), (1, 1), (-1, 1), (-2, 1)]
  | .lineBox, .top => [(-1, 0), (-1, 1), (-1, -1), (-1, -2)]
  | .lineBox, .right => [(0, -1), (-1, -1), (1, -1), (2, -1)]

/-- `canRotate(sealed)` of a piece of kind `k` in rotation state `r` with
its `mainShape` at board position `main`: the conjunction of `check` over
the transcribed offsets; `Box.canRotate` returns `false`
unconditionally. -/
def canRotate (k : ShapeKind) (r : RotationIndex) (main : Int × Int)
    (sealed : List (List Nat)) : Bool :=
  match k with
  | .box => false
  | _ => (canRotateChecks k r).all (fun d => check sealed (main.1 + d.1, main.2 + d.2))

/-- The absolute cells the next rotation state would occupy
(pivot-relative offsets applied to the pivot's board position). -/
def nextRotationCells (k : ShapeKind) (r : RotationIndex) (main : Int × Int) :
    List (Int × Int) :=
  (rotateOffsets k r).map (fun d => (main.1 + d.1, main.2 + d.2))

/-- Board with the single sealed cell at row 5, column 4. -/
def c4Board : List (List Nat) :=
  emptyBoard.set 5 ((List.replicate CELL_COUNT_X 0).set 4 1)

/-- **C4** — code bug.  The claim says `canRotate` returns `true` only if
every cell of the next rotation state is occupiable, and every case does
check exactly the four cells `rotate()` would install — except
`LBox.canRotate` in state `LEFT`, which checks the offset `(1, 0)` twice
and never `(-1, 0)` (an obvious copy-paste slip contradicting its own doc
comment).  Concretely: `LBox` in state `LEFT`, pivot at `(5, 5)`, board
sealed only at column 4, row 5 — `canRotate` returns `true`, yet the next
state contains the sealed cell `(4, 5)`, so not all four cells are
occupiable. -/
theorem C4_code_bug :
    canRotate ShapeKind.lbox RotationIndex.left (5, 5) c4Board = true
    ∧ (4, 5) ∈ nextRotationCells ShapeKind.lbox RotationIndex.left (5, 5)
    ∧ check c4Board (4, 5) = false
    ∧ (nextRotationCells ShapeKind.lbox RotationIndex.left (5, 5)).all
        (check c4Board) = false := by
  decide

/-! ## Locking and game over (`GamePlay.moveDown`) and C8 -/

/-- One `Map.set` pass of the `canGoDown` loop: per column key `s.x`,
keep the cube with the larger `y` (the lowest point of each column). -/
def colMaxStep (acc : List Cube) (s : Cube) : List Cube :=
  match acc.find? (fun t => t.x == s.x) with
  | some t => if t.y < s.y then acc.map (fun u => if u.x = s.x then s else u) else acc
  | none => acc ++ [s]

/-- The `Map<number, Cube>` of `canGoDown`: per occupied column, the
lowest cube. -/
def colMaxPoints (shapes : List Cube) : List Cube :=
  shapes.foldl colMaxStep []

/-- `canGoDown(sealed)`: no column's lowest cube has a sealed cell
directly below it (`sealed[s.y + 1][s.x] == 1`).  Callers only invoke it
when `getBottom() < CELL_COUNT_Y - 1`, so the row below exists. -/
def canGoDown (shapes : List Cube) (sealed : List (List Nat)) : Bool :=
  (colMaxPoints shapes).all (fun s => !(sealedAt sealed (s.y + 1) s.x == 1))

/-- Setting `sealed[y][x] = 1`; every cell of a locking piece lies inside
the grid. -/
def setCell (sealed : List (List Nat)) (y x : Int) : List (List Nat) :=
  if 0 ≤ y ∧ 0 ≤ x then
    sealed.set y.toNat ((sealed.getD y.toNat []).set x.toNat 1)
  else sealed

/-- `GameObject.seal(sealed)`: mark every cube's cell occupied (the cubes
themselves are returned to the caller, which appends them to
`buffered`). -/
def sealCells (shapes : List Cube) (sealed : List (List Nat)) : List (List Nat) :=
  shapes.foldl (fun sl s => setCell sl s.y s.x) sealed

/-- The game-over test after a lock:
`sealed[0].reduce((a, b) => a + b) != 0 || sealed[1].reduce(...) != 0`. -/
def topRowsOccupied (sealed : List (List Nat)) : Bool :=
  !((sealed.getD 0 []).sum == 0) || !((sealed.getD 1 []).sum == 0)

/-- The lock portion of `GamePlay.moveDown()`: seal the piece's cubes
into the board and append them to `buffered`, run `checkAndClearLine`,
and swap in the next piece (`newMovable` stands for `nextMovable` after
`moveRandom()`). -/
def lockStep (lm sm : ℚ) (newMovable : List Cube) (st : GameState) : GameState :=
  { checkAndClearLine lm sm
      { st with
        sealed := sealCells st.movable st.sealed
        buffered := st.buffered ++ st.movable }
    with movable := newMovable }

/-- `GamePlay.moveDown()`.  Returns the updated session and the method's
boolean result (`false` exactly when the piece locked this call).  The
`loop()` rendering calls and the preview redraw are external;
`clearInterval` on game over is `speedActive := false`;
`View.loadWithGroup` is `loadedView`. -/
def moveDown (lm sm : ℚ) (newMovable : List Cube) (st : GameState) :
    GameState × Bool :=
  if getBottom st.movable = (CELL_COUNT_Y : Int) - 1
      ∨ canGoDown st.movable st.sealed = false then
    if st.lastMove then
      ({ st with lastMove := false }, true)
    else
      let st3 := lockStep lm sm newMovable st
      if topRowsOccupied st3.sealed then
        if st3.gameType = GameType.singleplayer then
          ({ st3 with
              speedActive := false
              loadedView := some "scoreBoardWriter" }, false)
        else
          ({ st3 with
              speedActive := false
              wasLoser := true
              loadedView := some "winBoard" }, false)
      else (st3, false)
  else
    ({ st with
        movable := st.movable.map (fun s => { s with y := s.y + 1 })
        lastMove := true }, true)

/-- `checkAndClearLine` never touches the game type, the loser flag, the
navigation signal, the active piece or the grace flag. -/
lemma checkAndClearLine_const (lm sm : ℚ) (st : GameState) :
    (checkAndClearLine lm sm st).gameType = st.gameType
    ∧ (checkAndClearLine lm sm st).wasLoser = st.wasLoser
    ∧ (checkAndClearLine lm sm st).loadedView = st.loadedView
    ∧ (checkAndClearLine lm sm st).movable = st.movable
    ∧ (checkAndClearLine lm sm st).lastMove = st.lastMove := by
  simp only [checkAndClearLine]
  split_ifs <;> exact ⟨rfl, rfl, rfl, rfl, rfl⟩

lemma lockStep_const (lm sm : ℚ) (newMovable : List Cube) (st : GameState) :
    (lockStep lm sm newMovable st).gameType = st.gameType
    ∧ (lockStep lm sm newMovable st).wasLoser = st.wasLoser
    ∧ (lockStep lm sm newMovable st).loadedView = st.loadedView := by
  have h := checkAndClearLine_const lm sm
    { st with
      sealed := sealCells st.movable st.sealed
      buffered := st.buffered ++ st.movable }
  exact ⟨h.1, h.2.1, h.2.2.1⟩

/-- The board as the game-over check sees it: after sealing the piece and
running the clear pass. -/
def sealedAfterLock (lm sm : ℚ) (st : GameState) : List (List Nat) :=
  (checkAndClearLine lm sm
    { st with
      sealed := sealCells st.movable st.sealed
      buffered := st.buffered ++ st.movable }).sealed

/-- **C8.**  On the `moveDown` call where the piece actually locks (it
cannot descend and the one-tick grace has been used up), the board is
sealed and the clear pass runs; then, if the occupancy sum of grid row 0
or row 1 is non-zero, the session immediately becomes terminal — the
gravity timer is stopped and the end-of-match view is signalled
(name-entry `scoreBoardWriter` in single-player; the loser mark plus
`winBoard` in multiplayer) — regardless of score or level; if neither of
the topmost two rows is occupied, no terminal transition is signalled
(the navigation signal and the loser mark are untouched). -/
theorem C8_game_over (lm sm : ℚ) (newMovable : List Cube) (st : GameState)
    (hlock : getBottom st.movable = (CELL_COUNT_Y : Int) - 1
      ∨ canGoDown st.movable st.sealed = false)
    (hgrace : st.lastMove = false) :
    (moveDown lm sm newMovable st).1.sealed = sealedAfterLock lm sm st
    ∧ (moveDown lm sm newMovable st).2 = false
    ∧ (topRowsOccupied (sealedAfterLock lm sm st) = true →
        (moveDown lm sm newMovable st).1.speedActive = false
        ∧ (st.gameType = GameType.singleplayer →
            (moveDown lm sm newMovable st).1.loadedView = some "scoreBoardWriter")
        ∧ (st.gameType = GameType.multiplayer →
            (moveDown lm sm newMovable st).1.loadedView = some "winBoard"
            ∧ (moveDown lm sm newMovable st).1.wasLoser = true))
    ∧ (topRowsOccupied (sealedAfterLock lm sm st) = false →
        (moveDown lm sm newMovable st).1.loadedView = st.loadedView
        ∧ (moveDown lm sm newMovable st).1.wasLoser = st.wasLoser) := by
  have hgeq : (lockStep lm sm newMovable st).sealed = sealedAfterLock lm sm st := rfl
  have hconst := lockStep_const lm sm newMovable st
  simp only [moveDown]
  rw [if_pos hlock,
    if_neg (show ¬ st.lastMove = true by rw [hgrace]; exact Bool.false_ne_true)]
  split_ifs with hover hsingle
  · -- top rows occupied, single player
    refine ⟨rfl, rfl, fun _ => ⟨rfl, fun _ => rfl, fun hmulti => ?_⟩, fun habs => ?_⟩
    · rw [hconst.1, hmulti] at hsingle
      exact absurd hsingle (by decide)
    · rw [hgeq] at hover
      rw [habs] at hover
      exact absurd hover (by decide)
  · -- top rows occupied, multiplayer
    refine ⟨rfl, rfl, fun _ => ⟨rfl, fun hsin => ?_, fun _ => ⟨rfl, rfl⟩⟩, fun habs => ?_⟩
    · rw [hconst.1, hsin] at hsingle
      exact absurd rfl hsingle
    · rw [hgeq] at hover
      rw [habs] at hover
      exact absurd hover (by decide)
  · -- no top-row intrusion: no terminal transition
    refine ⟨rfl, rfl, fun habs => ?_, fun _ => ⟨hconst.2.2, hconst.2.1⟩⟩
    rw [hgeq] at hover
    rw [habs] at hover
    exact absurd rfl hover

/-- A single-player session about to lock a cube on the bottom row while
grid row 1 is already occupied (column 5): the next lock check must end
the match. -/
def c8State : GameState where
  sealed := emptyBoard.set 1 ((List.replicate CELL_COUNT_X 0).set 5 1)
  buffered := [⟨5, 1, "#ff0000"⟩]
  movable := [⟨0, 17, "#ffff00"⟩]
  points := 0
  cleared := 0
  needToClear := 5
  level := 1
  combo := 0
  lastMove := false
  speed := 500
  speedActive := true
  gameType := GameType.singleplayer
  wasLoser := false
  loadedView := none

set_option maxRecDepth 40000 in
/-- Witness for `C8_game_over`: locking on `c8State` stops the gravity
timer and signals the single-player name-entry view. -/
theorem C8_game_over_witness :
    (moveDown 1 1 [] c8State).1.speedActive = false
    ∧ (moveDown 1 1 [] c8State).1.loadedView = some "scoreBoardWriter" :=
  let h := (C8_game_over 1 1 [] c8State (Or.inl (by decide)) (by decide)).2.2.1 (by decide)
  ⟨h.1, h.2.1 (by decide)⟩

/-! ## The paired generator (`Generator`) and C9 -/

/-- A `Generator` call event: which side's `nextMovable`/`peekMovable`
runs, and which of the 7 shapes `Math.random` would draw — used only when
that side's queue is empty (`checkList`). -/
inductive GenEvent
  | nextA (s : ShapeKind)
  | nextB (s : ShapeKind)
  | peekA (s : ShapeKind)
  | peekB (s : ShapeKind)
deriving DecidableEq, Repr

/-- Two generators bound to each other (`Generator.bind` both ways, as
`GamePlay.bind` installs): each side's pending queue (`movables`, shape
kinds only — instance identity, color and sprite are ignored) and the
history of shapes its `nextMovable` has returned. -/
structure GenPair where
  histA : List ShapeKind
  histB : List ShapeKind
  qA : List ShapeKind
  qB : List ShapeKind
deriving DecidableEq, Repr

/-- One generator call in the bound configuration.  `checkList` on an
empty queue draws a shape and builds two independent instances of it —
one pushed onto the own queue, one onto the peer's (`generateNew(true)`);
`nextMovable` then shifts the front of the own queue, `peekMovable` only
reads it. -/
def genStep (st : GenPair) : GenEvent → GenPair
  | .nextA s =>
    match st.qA with
    | [] => { st with histA := st.histA ++ [s], qB := st.qB ++ [s] }
    | x :: rest => { st with histA := st.histA ++ [x], qA := rest }
  | .nextB s =>
    match st.qB with
    | [] => { st with histB := st.histB ++ [s], qA := st.qA ++ [s] }
    | x :: rest => { st with histB := st.histB ++ [x], qB := rest }
  | .peekA s =>
    match st.qA with
    | [] => { st with qA := [s], qB := st.qB ++ [s] }
    | _ :: _ => st
  | .peekB s =>
    match st.qB with
    | [] => { st with qB := [s], qA := st.qA ++ [s] }
    | _ :: _ => st

/-- Any interleaving of generator calls, starting from two freshly bound
generators (both queues empty, nothing dispensed). -/
def genRun (evs : List GenEvent) : GenPair :=
  evs.foldl genStep ⟨[], [], [], []⟩

lemma genStep_inv (st : GenPair) (ev : GenEvent)
    (h : st.histA ++ st.qA = st.histB ++ st.qB) :
    (genStep st ev).histA ++ (genStep st ev).qA =
      (genStep st ev).histB ++ (genStep st ev).qB := by
  cases ev with
  | nextA s =>
    cases hq : st.qA with
    | nil =>
      simp only [genStep, hq]
      rw [hq] at h
      simp only [List.append_nil] at h
      rw [List.append_nil, h, List.append_assoc]
    | cons x rest =>
      simp only [genStep, hq]
      rw [hq] at h
      rw [List.append_assoc, List.singleton_append, h]
  | nextB s =>
    cases hq : st.qB with
    | nil =>
      simp only [genStep, hq]
      rw [hq] at h
      simp only [List.append_nil] at h
      rw [List.append_nil, ← h, List.append_assoc]
    | cons x rest =>
      simp only [genStep, hq]
      rw [hq] at h
      rw [List.append_assoc, List.singleton_append]
      exact h
  | peekA s =>
    cases hq : st.qA with
    | nil =>
      simp only [genStep, hq]
      rw [hq] at h
      simp only [List.append_nil] at h
      rw [h, List.append_assoc]
    | cons x rest =>
      simp only [genStep, hq]
      rw [hq] at h
      exact h
  | peekB s =>
    cases hq : st.qB with
    | nil =>
      simp only [genStep, hq]
      rw [hq] at h
      simp only [List.append_nil] at h
      rw [← h, List.append_assoc]
    | cons x rest =>
      simp only [genStep, hq]
      rw [hq] at h
      exact h

/-- **C9.**  For two bound generators, after any interleaving of
`next()`/`peek()` calls, one side's dispensed history concatenated with
its pending queue equals the other side's, as shape sequences — the
invariant is established at binding (both queues empty) and preserved by
every call; consequently, whenever both sides have dispensed the same
number of pieces, the two dispensed sequences are equal
element-for-element (instance identity, color and sprite ignored). -/
theorem C9_generator_pairing (evs : List GenEvent) :
    (genRun evs).histA ++ (genRun evs).qA = (genRun evs).histB ++ (genRun evs).qB
    ∧ ((genRun evs).histA.length = (genRun evs).histB.length →
        (genRun evs).histA = (genRun evs).histB) := by
  have hmain : ∀ (l : List GenEvent) (st : GenPair),
      st.histA ++ st.qA = st.histB ++ st.qB →
      (l.foldl genStep st).histA ++ (l.foldl genStep st).qA =
        (l.foldl genStep st).histB ++ (l.foldl genStep st).qB := by
    intro l
    induction l with
    | nil => intro st h; exact h
    | cons e es ih => intro st h; exact ih (genStep st e) (genStep_inv st e h)
  have h1 := hmain evs ⟨[], [], [], []⟩ rfl
  exact ⟨h1, fun hlen => (List.append_inj h1 hlen).1⟩

/-- Witness for `C9_generator_pairing`: a draw on side A followed by a
consume on side B dispenses the same shape on both sides. -/
theorem C9_generator_pairing_witness :
    (genRun [GenEvent.nextA ShapeKind.tbox, GenEvent.nextB ShapeKind.zbox]).histA =
      (genRun [GenEvent.nextA ShapeKind.tbox, GenEvent.nextB ShapeKind.zbox]).histB :=
  (C9_generator_pairing [GenEvent.nextA ShapeKind.tbox, GenEvent.nextB ShapeKind.zbox]).2
    (by decide)

end TetrisArcade
